import Mathlib

/-!
# hal-hipchat-adapter: a shallow embedding of `hipchat.go`

The adapter is glue between the `hal` bot framework and the `hipchat` client
library.  Both are external to the repository, so they appear here as
parameters:

* the framework's user roster is an abstract store with the two operations the
  adapter calls (`Get`, `Set`);
* every call the adapter makes on the client, and every call it makes on the
  robot that changes something (`Users.Set`, `Receive`), is recorded, in order,
  in a list of `Event`s; a call on the nil client is a panic;
* every call of `hipchat.NewClient` and every receive from one of the client's
  channels is recorded, in order, in a list of `Op`s;
* what the server answers (the result of `NewClient`, the fetched users and
  rooms, the inbound messages up to the close of the channel, the order in
  which `range` visits a map) is a `World`.

Go strings are modelled by `String`; the separators the code splits on (`/` and
`,`) are single characters.  A Go panic is the `error` side of `Except Panic`.
Logging calls are left out.
-/

namespace HalHipchat

/-! ## Go runtime pieces -/

/-- The run-time failures the adapter's code can raise. -/
inductive Panic where
  | nilDereference
  | indexOutOfRange
  | typeAssertion
  | regexpCompile (pattern : String)
  | userAddFail (id : String)
  deriving DecidableEq, Repr

/-- A value stored behind `interface{}`: a string, or a value of another type. -/
inductive Dyn where
  | str (s : String)
  | other (tag : Nat)
  deriving DecidableEq, Repr

/-- Pieces of a character list between occurrences of `sep`
(`strings.Split` with a one-character separator, on the characters). -/
def splitChars (sep : Char) : List Char → List (List Char)
  | [] => [[]]
  | c :: cs =>
    if c = sep then [] :: splitChars sep cs
    else match splitChars sep cs with
      | [] => [[c]]
      | p :: ps => (c :: p) :: ps

/-- Go `strings.Split(s, sep)` for a one-character separator. -/
def Split (s : String) (sep : Char) : List String :=
  (splitChars sep s.data).map String.mk

/-- Go `strings.Replace(s, old, new, 1)` on the characters, for a non-empty
`old`: the first occurrence of `old` is replaced. -/
def replaceFirstChars (old new : List Char) : List Char → List Char
  | [] => []
  | c :: cs =>
    if old.isPrefixOf (c :: cs) then new ++ (c :: cs).drop old.length
    else c :: replaceFirstChars old new cs

/-- Go `strings.Replace(s, old, new, 1)` for a non-empty `old`. -/
def Replace (s old new : String) : String :=
  String.mk (replaceFirstChars old.data new.data s.data)

/-- Go slice indexing `xs[i]`: out of range is a run-time panic. -/
def index (xs : List String) (i : Nat) : Except Panic String :=
  match xs.get? i with
  | some x => .ok x
  | none => .error .indexOutOfRange

/-- A Go `map[string]string`, as the list of its entries (keys distinct). -/
abbrev StrMap := List (String × String)

/-- Go `m[k] = v`. -/
def StrMap.assign (m : StrMap) (k v : String) : StrMap :=
  if m.any (fun p => p.1 == k) then
    m.map (fun p => if p.1 == k then (k, v) else p)
  else m ++ [(k, v)]

/-- Go `m[k]`: the zero value `""` for a missing key. -/
def StrMap.at (m : StrMap) (k : String) : String :=
  match m.lookup k with
  | some v => v
  | none => ""

/-! ## Types of the two libraries, as far as the adapter uses them -/

/-- The fields of `hal.User` the adapter reads or writes.  `Options` is a
`map[string]interface{}`; `none` is the nil map. -/
structure User where
  ID : String
  Name : String
  Options : Option (List (String × Dyn))
  deriving DecidableEq, Repr

/-- The zero value `hal.User{}`. -/
def User.zero : User := { ID := "", Name := "", Options := none }

/-- The fields of `hal.Message` that `newMessage` sets. -/
structure Message where
  User : User
  Room : String
  Text : String
  deriving DecidableEq, Repr

/-- The user pointer of `hal.Envelope`; `none` is the nil pointer. -/
structure Envelope where
  User : Option User
  deriving DecidableEq, Repr

/-- The fields of `hal.Response` the adapter reads. -/
structure Response where
  Message : Message
  Envelope : Envelope
  deriving DecidableEq, Repr

/-- A user as fetched by the client library (`hipchat.User`). -/
structure HUser where
  Id : String
  Name : String
  MentionName : String
  deriving DecidableEq, Repr

/-- A room as fetched by the client library (`hipchat.Room`). -/
structure HRoom where
  Id : String
  Name : String
  deriving DecidableEq, Repr

/-- A wire message (`hipchat.Message`). -/
structure HMessage where
  From : String
  Body : String
  deriving DecidableEq, Repr

/-- A connected `hipchat.Client`; the adapter reads its `Id`. -/
structure Client where
  Id : String
  deriving DecidableEq, Repr

/-- The roster `Robot.Users` of the framework, through the two calls the
adapter makes.  `Get` answers `none` when it returns a non-nil error (together
with the zero user); the error `Set` returns is dropped by the adapter. -/
structure UserMap (σ : Type) where
  Get : σ → String → Option User
  Set : σ → String → User → σ

/-- The map law for a roster: a key just set can be read. -/
def UserMap.ReadsBack {σ : Type} (U : UserMap σ) : Prop :=
  ∀ (s : σ) (k : String) (u : User), (U.Get (U.Set s k u) k).isSome = true

/-- The framework's own roster, a Go map from ids to users. -/
def mapRoster : UserMap (List (String × User)) where
  Get := fun s k => s.lookup k
  Set := fun s k u => (k, u) :: s

/-- A registered handler as `Receive` meets it: a `*hal.Handler`, of which it
reads the pattern, or a handler of another type. -/
inductive Handler where
  | plain (Pattern : String)
  | foreign
  deriving DecidableEq, Repr

/-- The parts of `hal.Robot` the adapter touches. -/
structure Robot (σ : Type) where
  Users : σ
  Alias : String
  Handlers : List Handler

/-- The global `hal.Config`, as far as the adapter reads it. -/
structure Config where
  Alias : String
  Name : String
  deriving DecidableEq, Repr

/-- What the adapter does to the outside, in the order it does it. -/
inductive Event where
  | Status (s : String)
  | RequestUsers
  | RequestRooms
  | Join (roomId : String) (nick : String)
  | KeepAlive
  | Say (roomId : String) (name : String) (body : String)
  | PrivSay (user : String) (name : String) (body : String)
  | UsersSet (id : String) (u : User)
  | RobotReceive (m : Message)
  deriving DecidableEq, Repr

/-- The calls of an event list that go to the chat client. -/
def Event.isClientCall : Event → Bool
  | .UsersSet _ _ => false
  | .RobotReceive _ => false
  | _ => true

/-! ## The adapter -/

/-- The `adapter` struct. -/
structure adapter where
  user : String
  nick : String
  name : String
  password : String
  resource : String
  rooms : List String
  client : Option Client
  deriving DecidableEq, Repr

/-- The `config` struct, as filled in by `env.MustProcess`. -/
structure config where
  User : String
  Password : String
  Rooms : String
  Resource : String
  deriving DecidableEq, Repr

/-- `New`: the adapter built from a processed configuration. -/
def New (c : config) : adapter :=
  { user := c.User
    nick := ""
    name := ""
    password := c.Password
    resource := c.Resource
    rooms := if c.Rooms.length > 0 then Split c.Rooms ',' else []
    client := none }

/-- A method call on `a.client`: with the nil pointer the call panics, with a
client it is the recorded call. -/
def onClient (a : adapter) (call : Event) : Except Panic Event :=
  match a.client with
  | none => .error .nilDereference
  | some _ => .ok call

/-- The `for` loop of `Send`, one client call per string. -/
def sendLoop {σ : Type} (U : UserMap σ) (a : adapter) (users : σ) (res : Response) :
    List String → Except Panic (List Event)
  | [] => .ok []
  | str :: rest =>
    match
      (match U.Get users res.Message.Room with
        | none => onClient a (Event.Say res.Message.Room a.name str)
        | some user => onClient a (Event.PrivSay user.ID a.name str)) with
    | .error p => .error p
    | .ok call =>
      match sendLoop U a users res rest with
      | .error p => .error p
      | .ok calls => .ok (call :: calls)

/-- `Send`: the calls made and the returned error (`none` is nil), or the
panic of a call on the nil client. -/
def Send {σ : Type} (U : UserMap σ) (a : adapter) (users : σ) (res : Response)
    (strings : List String) : Except Panic (List Event × Option String) :=
  match sendLoop U a users res strings with
  | .error p => .error p
  | .ok calls => .ok (calls, none)

/-- `mentionName`; the argument is a pointer, `none` being nil. -/
def mentionName (u : Option User) : Except Panic String :=
  match u with
  | none => .error .nilDereference
  | some u =>
    match (u.Options.getD []).lookup "mentionName" with
    | none => .ok ""
    | some (.str s) => .ok s
    | some (.other _) => .error .typeAssertion

/-- The loop of `Reply`: each formatted string is appended to `newStrings`. -/
def replyLoop (res : Response) : List String → List String → Except Panic (List String)
  | newStrings, [] => .ok newStrings
  | newStrings, str :: rest => do
    let mn ← mentionName res.Envelope.User
    let s := "@" ++ mn ++ ": " ++ str
    replyLoop res (newStrings ++ [s]) rest

/-- The slice `Reply` hands to `Send`: `make([]string, len(strings))` followed
by the appends of the loop. -/
def replyStrings (res : Response) (strings : List String) : Except Panic (List String) :=
  replyLoop res (List.replicate strings.length "") strings

/-- `Reply`. -/
def Reply {σ : Type} (U : UserMap σ) (a : adapter) (users : σ) (res : Response)
    (strings : List String) : Except Panic (List Event × Option String) := do
  let newStrings ← replyStrings res strings
  Send U a users res newStrings

/-- `newMessage`; `cfgAlias` is the global `hal.Config.Alias`. -/
def newMessage {σ : Type} (U : UserMap σ) (users : σ) (cfgAlias : String)
    (msg : HMessage) : Except Panic Message := do
  let frm := Split msg.From '/'
  let room ← index frm 0
  let user := (U.Get users room).getD User.zero
  pure { User := user, Room := room, Text := "@" ++ cfgAlias ++ ": " ++ msg.Body }

/-- The regular expression `Receive` builds for a handler's pattern. -/
def respondRegexp (cfg : Config) (pattern : String) : String :=
  Replace ("^(?:@?(?:" ++ cfg.Alias ++ "|" ++ cfg.Name ++ ")[:,]?)\\s+(?:$\x7b1\x7d)")
    "$\x7b1\x7d" pattern

/-- The loop of `Receive` over the robot's handlers: each must be a
`*hal.Handler`, and `regexp.MustCompile` (here `compiles`) must accept the
expression built from its pattern; what is matched is only logged. -/
def handlerLoop (compiles : String → Bool) (cfg : Config) : List Handler → Except Panic Unit
  | [] => .ok ()
  | h :: rest =>
    match h with
    | .foreign => .error .typeAssertion
    | .plain pattern =>
      if compiles (respondRegexp cfg pattern) then handlerLoop compiles cfg rest
      else .error (.regexpCompile (respondRegexp cfg pattern))

/-- `Receive`: after the loop over the handlers the message is handed to the
robot; the error returned is nil.  What the robot then does is not the
adapter's. -/
def Receive (compiles : String → Bool) (cfg : Config) (handlers : List Handler)
    (msg : Message) : Except Panic (List Event × Option String) :=
  match handlerLoop compiles cfg handlers with
  | .error p => .error p
  | .ok _ => .ok ([Event.RobotReceive msg], none)

/-- A use of the client library that is not a call on a connected client: a
call of `hipchat.NewClient`, or a receive from one of the client's channels. -/
inductive Op where
  | NewClient (user : String) (password : String) (resource : String)
  | RecvUsers
  | RecvRooms
  | RecvMessage (m : HMessage)
  deriving DecidableEq, Repr

/-- The calls of `hipchat.NewClient` among the operations. -/
def Op.isLogin : Op → Bool
  | .NewClient _ _ _ => true
  | _ => false

/-- The state `startConnection` works on: the adapter, the robot, the calls
made so far on the client and the robot, and the logins and channel receives
made so far. -/
structure Conn (σ : Type) where
  a : adapter
  robot : Robot σ
  trace : List Event
  ops : List Op := []

/-- What lies outside the adapter in one run of `startConnection`: the answer
of `hipchat.NewClient`, the lists the client's channels deliver, the messages
delivered before the message channel is closed, the order in which `range`
visits a map, and which expressions `regexp.MustCompile` accepts. -/
structure World where
  NewClient : String → String → String → Except String Client
  Users : List HUser
  Rooms : List HRoom
  Messages : List HMessage
  mapOrder : StrMap → StrMap
  compiles : String → Bool

/-- The `hal.User` built for a fetched user. -/
def newUser (user : HUser) : User :=
  { ID := user.Id
    Name := user.Name
    Options := some [("mentionName", Dyn.str user.MentionName)] }

/-- The loop over the fetched users. -/
def userLoop {σ : Type} (U : UserMap σ) (clientId : String) :
    Conn σ → List HUser → Except Panic (Conn σ)
  | st, [] => .ok st
  | st, user :: rest =>
    if user.Id = clientId then
      userLoop U clientId
        { st with a := { st.a with name := user.Name, nick := user.MentionName } } rest
    else
      let users := U.Set st.robot.Users user.Id (newUser user)
      match U.Get users user.Id with
      | none => .error (.userAddFail user.Id)
      | some _ =>
        userLoop U clientId
          { st with
            robot := { st.robot with Users := users }
            trace := st.trace ++ [Event.UsersSet user.Id (newUser user)] } rest

/-- The map `roomJids` after the loop over the fetched rooms. -/
def roomJidsOf (rooms : List HRoom) : StrMap :=
  rooms.foldl (fun m room => m.assign room.Name room.Id) []

/-- The joins of the branch `len(a.rooms) > 0`: one per configured name. -/
def joinWanted (roomJids : StrMap) (name : String) : List String → List Event
  | [] => []
  | room :: rest => Event.Join (roomJids.at room) name :: joinWanted roomJids name rest

/-- The joins of the other branch: one per entry of the map, in the order
`range` visits them. -/
def joinAll (visited : StrMap) (name : String) : List Event :=
  visited.map (fun p => Event.Join p.2 name)

/-- The joins made by `startConnection`. -/
def joinRooms (order : StrMap → StrMap) (a : adapter) (roomJids : StrMap) : List Event :=
  if a.rooms.length > 0 then joinWanted roomJids a.name a.rooms
  else joinAll (order roomJids) a.name

/-- The loop over the inbound messages. -/
def messageLoop {σ : Type} (U : UserMap σ) (compiles : String → Bool) (cfg : Config) :
    Conn σ → List HMessage → Except Panic (Conn σ)
  | st, [] => .ok st
  | st0, message :: rest =>
    let st : Conn σ := { st0 with ops := st0.ops ++ [Op.RecvMessage message] }
    let frm := Split message.From '/'
    if frm.length < 2 then messageLoop U compiles cfg st rest
    else
      match index frm 1 with
      | .error p => .error p
      | .ok second =>
        if second = st.a.name then messageLoop U compiles cfg st rest
        else
          match newMessage U st.robot.Users cfg.Alias message with
          | .error p => .error p
          | .ok msg =>
            match Receive compiles cfg st.robot.Handlers msg with
            | .error p => .error p
            | .ok r => messageLoop U compiles cfg { st with trace := st.trace ++ r.1 } rest

/-- `startConnection`: the final state and the returned error (`none` is nil),
or the panic that ended it. -/
def startConnection {σ : Type} (U : UserMap σ) (w : World) (cfg : Config)
    (a : adapter) (robot : Robot σ) : Except Panic (Conn σ × Option String) :=
  match w.NewClient a.user a.password a.resource with
  | .error err =>
    .ok ({ a := a, robot := robot, trace := [],
           ops := [Op.NewClient a.user a.password a.resource] }, some err)
  | .ok client =>
    match userLoop U client.Id
        { a := a, robot := robot, trace := [Event.Status "chat", Event.RequestUsers],
          ops := [Op.NewClient a.user a.password a.resource, Op.RecvUsers] }
        w.Users with
    | .error p => .error p
    | .ok st1 =>
      let roomJids := roomJidsOf w.Rooms
      let joins := joinRooms w.mapOrder st1.a roomJids
      let st2 : Conn σ :=
        { a := { st1.a with client := some client }
          robot := { st1.robot with Alias := st1.a.nick }
          trace := st1.trace ++ [Event.RequestRooms, Event.Status "chat"] ++ joins
            ++ [Event.KeepAlive]
          ops := st1.ops ++ [Op.RecvRooms] }
      match messageLoop U w.compiles cfg st2 w.Messages with
      | .error p => .error p
      | .ok st3 => .ok (st3, none)

/-! ## Reference descriptions, in the words of the specification -/

/-- The text of `s` before the first `sep` (all of `s` when it has none). -/
def beforeFirst (sep : Char) (s : String) : String :=
  String.mk (s.data.takeWhile (fun c => c != sep))

/-- The text of `s` between the first `sep` and the next one, or the end. -/
def afterFirst (sep : Char) (s : String) : String :=
  String.mk (((s.data.dropWhile (fun c => c != sep)).drop 1).takeWhile (fun c => c != sep))

/-- The messages the loop is described as passing on: `From` has a `/`, and
the text after it, up to the next `/`, is not the bot's name. -/
def wanted (name : String) (message : HMessage) : Bool :=
  message.From.data.contains '/' && (afterFirst '/' message.From != name)

/-- The framework message a wire message is described as turning into. -/
def translated {σ : Type} (U : UserMap σ) (users : σ) (cfgAlias : String)
    (msg : HMessage) : Message :=
  { User := (U.Get users (beforeFirst '/' msg.From)).getD User.zero
    Room := beforeFirst '/' msg.From
    Text := "@" ++ cfgAlias ++ ": " ++ msg.Body }

/-- The fetched users other than the bot. -/
def stored (clientId : String) (users : List HUser) : List HUser :=
  users.filter (fun u => u.Id != clientId)

/-- The roster entry a fetched user is described as being stored as. -/
def rosterEntry (user : HUser) : User :=
  { ID := user.Id
    Name := user.Name
    Options := some [("mentionName", Dyn.str user.MentionName)] }

/-- The bot's own entry gives the adapter its name and nick. -/
def noteBot (clientId : String) (a : adapter) (u : HUser) : adapter :=
  if u.Id = clientId then { a with name := u.Name, nick := u.MentionName } else a

/-- The state the user loop is described as ending in: the bot's entries set
the name and the nick, every other user is stored under its id. -/
def afterUsers {σ : Type} (U : UserMap σ) (clientId : String) (st : Conn σ)
    (users : List HUser) : Conn σ :=
  { a := users.foldl (noteBot clientId) st.a
    robot :=
      { st.robot with
        Users := (stored clientId users).foldl (fun s u => U.Set s u.Id (rosterEntry u))
          st.robot.Users }
    trace := st.trace ++
      (stored clientId users).map (fun u => Event.UsersSet u.Id (rosterEntry u))
    ops := st.ops }

/-- The strings a direct reply to `strings` consists of. -/
def directReplies (mn : String) (strings : List String) : List String :=
  strings.map (fun str => "@" ++ mn ++ ": " ++ str)

/-- What `env.MustProcess` leaves behind when it accepts the environment: the
required keys are set, and `Resource` holds its value or the default `bot`. -/
def accepted (c : config) : Bool :=
  c.User != "" && c.Password != "" && c.Resource != ""

/-! ## Sample data -/

/-- A roster that stores nothing: every `Get` fails. -/
def deafRoster : UserMap Unit where
  Get := fun _ _ => none
  Set := fun _ _ _ => ()

/-- The client the sample server hands out. -/
def sampleClient : Client := { Id := "7_bot@chat.hipchat.com" }

/-- The adapter of the sample environment once connected. -/
def connectedAdapter : adapter :=
  { user := "7_bot", nick := "hal", name := "Hal", password := "pw", resource := "bot",
    rooms := ["ghost"], client := some sampleClient }

/-- The bot's own entry in the fetched user list. -/
def botH : HUser := { Id := "7_bot@chat.hipchat.com", Name := "Hal", MentionName := "hal" }

/-- Another fetched user. -/
def aliceH : HUser := { Id := "7_alice@chat.hipchat.com", Name := "Alice", MentionName := "al" }

/-- An environment with one configured room. -/
def sampleConfig : config :=
  { User := "7_bot", Password := "pw", Rooms := "ghost", Resource := "bot" }

/-- An environment with no configured room. -/
def bareConfig : config :=
  { User := "7_bot", Password := "pw", Rooms := "", Resource := "bot" }

/-- An environment whose room list has an empty item. -/
def gappedConfig : config :=
  { User := "7_bot", Password := "pw", Rooms := "dev,,ops", Resource := "bot" }

/-- A robot with an empty roster. -/
def sampleRobot : Robot (List (String × User)) :=
  { Users := [], Alias := "", Handlers := [Handler.plain "ping"] }

/-- A framework configuration. -/
def sampleCfg : Config := { Alias := "hal", Name := "hal" }

/-- A server with two users, one room and three inbound messages. -/
def sampleWorld : World :=
  { NewClient := fun user _ _ => .ok { Id := user ++ "@chat.hipchat.com" }
    Users := [botH, aliceH]
    Rooms := [{ Id := "7_dev@conf.hipchat.com", Name := "dev" }]
    Messages :=
      [{ From := "7_dev@conf.hipchat.com", Body := "topic" },
       { From := "7_dev@conf.hipchat.com/Alice", Body := "ping" },
       { From := "7_dev@conf.hipchat.com/Hal", Body := "pong" }]
    mapOrder := id
    compiles := fun _ => true }

/-- A server that refuses the login. -/
def refusingWorld : World :=
  { sampleWorld with NewClient := fun _ _ _ => .error "refused" }

/-- A response to a message of Alice in a room. -/
def sampleResponse : Response :=
  { Message := { User := newUser aliceH, Room := "7_dev@conf.hipchat.com", Text := "@hal: ping" }
    Envelope := { User := some (newUser aliceH) } }

/-! ## Splitting -/

theorem splitChars_eq (sep : Char) (cs : List Char) :
    splitChars sep cs =
      cs.takeWhile (fun c => c != sep) ::
        (match cs.dropWhile (fun c => c != sep) with
          | [] => []
          | _ :: tl => splitChars sep tl) := by
  induction cs with
  | nil => simp [splitChars]
  | cons c cs ih =>
    by_cases h : c = sep
    · subst h
      simp [splitChars]
    · have hne : (c != sep) = true := by simpa using h
      rw [splitChars, if_neg h, ih]
      simp [List.takeWhile_cons, List.dropWhile_cons, hne]

theorem dropWhile_ne_eq_nil_iff (sep : Char) (cs : List Char) :
    cs.dropWhile (fun c => c != sep) = [] ↔ sep ∉ cs := by
  induction cs with
  | nil => simp
  | cons c cs ih =>
    by_cases h : c = sep
    · subst h
      simp [List.dropWhile_cons]
    · have hne : (c != sep) = true := by simpa using h
      have h2 : ¬ sep = c := fun e => h e.symm
      simp [List.dropWhile_cons, hne, ih, h2]

theorem takeWhile_ne_eq_self (sep : Char) (cs : List Char) (h : sep ∉ cs) :
    cs.takeWhile (fun c => c != sep) = cs := by
  induction cs with
  | nil => simp
  | cons c cs ih =>
    have hc : ¬ c = sep := fun e => h (by simp [e])
    have hne : (c != sep) = true := by simpa using hc
    have hcs : sep ∉ cs := fun m => h (List.mem_cons_of_mem _ m)
    simp [List.takeWhile_cons, hne, ih hcs]

theorem Split_head (s : String) (sep : Char) :
    ∃ rest, Split s sep = beforeFirst sep s :: rest := by
  unfold Split beforeFirst
  rw [splitChars_eq, List.map_cons]
  exact ⟨_, rfl⟩

theorem index_zero_Split (s : String) (sep : Char) :
    index (Split s sep) 0 = .ok (beforeFirst sep s) := by
  obtain ⟨rest, h⟩ := Split_head s sep
  simp [h, index]

theorem Split_without (s : String) (sep : Char) (h : sep ∉ s.data) :
    Split s sep = [s] := by
  unfold Split
  rw [splitChars_eq]
  have hd := (dropWhile_ne_eq_nil_iff sep s.data).2 h
  rw [hd, takeWhile_ne_eq_self sep s.data h]
  rfl

theorem Split_with (s : String) (sep : Char) (h : sep ∈ s.data) :
    ∃ rest, Split s sep = beforeFirst sep s :: afterFirst sep s :: rest := by
  unfold Split beforeFirst afterFirst
  rw [splitChars_eq]
  have hd : s.data.dropWhile (fun c => c != sep) ≠ [] :=
    fun e => (dropWhile_ne_eq_nil_iff sep s.data).1 e h
  cases hdw : s.data.dropWhile (fun c => c != sep) with
  | nil => exact absurd hdw hd
  | cons x tl =>
    simp only [List.drop_succ_cons, List.drop_zero]
    rw [splitChars_eq]
    exact ⟨_, rfl⟩

theorem beforeFirst_without (s : String) (sep : Char) (h : sep ∉ s.data) :
    beforeFirst sep s = s := by
  unfold beforeFirst
  rw [takeWhile_ne_eq_self sep s.data h]

theorem newMessage_eq {σ : Type} (U : UserMap σ) (users : σ) (cfgAlias : String)
    (msg : HMessage) :
    newMessage U users cfgAlias msg = .ok (translated U users cfgAlias msg) := by
  simp only [newMessage, index_zero_Split]
  rfl

theorem wanted_iff_split (name : String) (m : HMessage) :
    wanted name m = true ↔
      2 ≤ (Split m.From '/').length ∧ (Split m.From '/').get? 1 ≠ some name := by
  by_cases h : '/' ∈ m.From.data
  · obtain ⟨rest, hs⟩ := Split_with m.From '/' h
    simp [wanted, hs, h]
  · simp [wanted, Split_without m.From '/' h, h]

theorem Receive_ok (compiles : String → Bool) (cfg : Config) (handlers : List Handler)
    (msg : Message) (hd : handlerLoop compiles cfg handlers = .ok ()) :
    Receive compiles cfg handlers msg = .ok ([Event.RobotReceive msg], none) := by
  simp [Receive, hd]

theorem Receive_error (compiles : String → Bool) (cfg : Config) (handlers : List Handler)
    (msg : Message) (p : Panic) (hd : handlerLoop compiles cfg handlers = .error p) :
    Receive compiles cfg handlers msg = .error p := by
  simp [Receive, hd]

theorem handlerLoop_error (compiles : String → Bool) (cfg : Config)
    (handlers : List Handler) (p : Panic)
    (h : handlerLoop compiles cfg handlers = .error p) :
    p = .typeAssertion ∨ ∃ e, p = .regexpCompile e := by
  induction handlers with
  | nil => simp [handlerLoop] at h
  | cons hd rest ih =>
    cases hd with
    | foreign =>
      simp only [handlerLoop, Except.error.injEq] at h
      exact Or.inl h.symm
    | plain pattern =>
      by_cases hc : compiles (respondRegexp cfg pattern) = true
      · simp only [handlerLoop, hc, if_true] at h
        exact ih h
      · simp only [handlerLoop, hc] at h
        rw [if_neg (by simp)] at h
        simp only [Except.error.injEq] at h
        exact Or.inr ⟨_, h.symm⟩

theorem messageLoop_skip {σ : Type} (U : UserMap σ) (compiles : String → Bool) (cfg : Config)
    (m : HMessage) (rest : List HMessage) (st : Conn σ)
    (hw : wanted st.a.name m = false) :
    messageLoop U compiles cfg st (m :: rest) =
      messageLoop U compiles cfg { st with ops := st.ops ++ [Op.RecvMessage m] } rest := by
  by_cases h : '/' ∈ m.From.data
  · obtain ⟨tl, hs⟩ := Split_with m.From '/' h
    have hn : afterFirst '/' m.From = st.a.name := by simpa [wanted, h] using hw
    have hlen : ¬ (tl.length + 1 + 1 < 2) := by omega
    simp [messageLoop, hs, index, hn, hlen]
  · simp [messageLoop, Split_without m.From '/' h]

theorem messageLoop_pass {σ : Type} (U : UserMap σ) (compiles : String → Bool) (cfg : Config)
    (m : HMessage) (rest : List HMessage) (st : Conn σ)
    (hw : wanted st.a.name m = true) :
    messageLoop U compiles cfg st (m :: rest) =
      match Receive compiles cfg st.robot.Handlers (translated U st.robot.Users cfg.Alias m) with
      | .error p => .error p
      | .ok r =>
        messageLoop U compiles cfg
          { st with trace := st.trace ++ r.1, ops := st.ops ++ [Op.RecvMessage m] } rest := by
  have h : '/' ∈ m.From.data := by
    simp only [wanted, Bool.and_eq_true] at hw
    simpa using hw.1
  have hn : ¬ afterFirst '/' m.From = st.a.name := by
    simp only [wanted, Bool.and_eq_true] at hw
    simpa using hw.2
  obtain ⟨tl, hs⟩ := Split_with m.From '/' h
  have hlen : ¬ (tl.length + 1 + 1 < 2) := by omega
  simp [messageLoop, hs, index, hn, hlen, newMessage_eq]

theorem messageLoop_eq {σ : Type} (U : UserMap σ) (compiles : String → Bool) (cfg : Config)
    (msgs : List HMessage) (st : Conn σ)
    (hd : handlerLoop compiles cfg st.robot.Handlers = .ok ()) :
    messageLoop U compiles cfg st msgs =
      .ok { st with
            trace := st.trace ++ (msgs.filter (wanted st.a.name)).map
              (fun m => Event.RobotReceive (translated U st.robot.Users cfg.Alias m))
            ops := st.ops ++ msgs.map Op.RecvMessage } := by
  induction msgs generalizing st with
  | nil => simp [messageLoop]
  | cons m rest ih =>
    cases hw : wanted st.a.name m with
    | false =>
      have hstep := ih { st with ops := st.ops ++ [Op.RecvMessage m] } hd
      simp only [] at hstep
      rw [messageLoop_skip U compiles cfg m rest st hw, hstep]
      simp [List.filter_cons, hw]
    | true =>
      rw [messageLoop_pass U compiles cfg m rest st hw, Receive_ok compiles cfg _ _ hd]
      have hstep := ih
        { st with
          trace := st.trace ++ [Event.RobotReceive (translated U st.robot.Users cfg.Alias m)]
          ops := st.ops ++ [Op.RecvMessage m] }
        hd
      simp only [] at hstep ⊢
      rw [hstep]
      simp [List.filter_cons, hw]

theorem messageLoop_bad {σ : Type} (U : UserMap σ) (compiles : String → Bool) (cfg : Config)
    (msgs : List HMessage) (st : Conn σ) (q : Panic)
    (hd : handlerLoop compiles cfg st.robot.Handlers = .error q) :
    messageLoop U compiles cfg st msgs =
      if msgs.any (wanted st.a.name) = true then .error q
      else .ok { st with ops := st.ops ++ msgs.map Op.RecvMessage } := by
  induction msgs generalizing st with
  | nil => simp [messageLoop]
  | cons m rest ih =>
    cases hw : wanted st.a.name m with
    | false =>
      have hstep := ih { st with ops := st.ops ++ [Op.RecvMessage m] } hd
      simp only [] at hstep
      rw [messageLoop_skip U compiles cfg m rest st hw, hstep]
      simp [List.any_cons, hw]
    | true =>
      rw [messageLoop_pass U compiles cfg m rest st hw, Receive_error compiles cfg _ _ q hd]
      simp [List.any_cons, hw]

theorem messageLoop_error {σ : Type} (U : UserMap σ) (compiles : String → Bool) (cfg : Config)
    (msgs : List HMessage) (st : Conn σ) (p q : Panic)
    (hd : handlerLoop compiles cfg st.robot.Handlers = .error q)
    (h : messageLoop U compiles cfg st msgs = .error p) : p = q := by
  rw [messageLoop_bad U compiles cfg msgs st q hd] at h
  split at h
  · simp only [Except.error.injEq] at h
    exact h.symm
  · cases h

theorem messageLoop_ops {σ : Type} (U : UserMap σ) (compiles : String → Bool) (cfg : Config)
    (msgs : List HMessage) (st st1 : Conn σ)
    (h : messageLoop U compiles cfg st msgs = .ok st1) :
    st1.ops = st.ops ++ msgs.map Op.RecvMessage := by
  cases hd : handlerLoop compiles cfg st.robot.Handlers with
  | ok u =>
    rw [messageLoop_eq U compiles cfg msgs st hd] at h
    simp only [Except.ok.injEq] at h
    rw [← h]
  | error q =>
    rw [messageLoop_bad U compiles cfg msgs st q hd] at h
    split at h
    · cases h
    · simp only [Except.ok.injEq] at h
      rw [← h]

/-! ## The user loop -/

theorem userLoop_bot {σ : Type} (U : UserMap σ) (clientId : String) (st : Conn σ)
    (user : HUser) (rest : List HUser) (h : user.Id = clientId) :
    userLoop U clientId st (user :: rest) =
      userLoop U clientId
        { st with a := { st.a with name := user.Name, nick := user.MentionName } } rest := by
  simp [userLoop, h]

theorem userLoop_fail {σ : Type} (U : UserMap σ) (clientId : String) (st : Conn σ)
    (user : HUser) (rest : List HUser) (h : user.Id ≠ clientId)
    (hg : U.Get (U.Set st.robot.Users user.Id (newUser user)) user.Id = none) :
    userLoop U clientId st (user :: rest) = .error (.userAddFail user.Id) := by
  simp [userLoop, h, hg]

theorem userLoop_store {σ : Type} (U : UserMap σ) (clientId : String) (st : Conn σ)
    (user : HUser) (rest : List HUser) (h : user.Id ≠ clientId)
    (hg : (U.Get (U.Set st.robot.Users user.Id (newUser user)) user.Id).isSome = true) :
    userLoop U clientId st (user :: rest) =
      userLoop U clientId
        { st with
          robot := { st.robot with Users := U.Set st.robot.Users user.Id (newUser user) }
          trace := st.trace ++ [Event.UsersSet user.Id (newUser user)] } rest := by
  obtain ⟨x, hx⟩ := Option.isSome_iff_exists.1 hg
  simp [userLoop, h, hx]

theorem userLoop_ok {σ : Type} (U : UserMap σ) (hU : U.ReadsBack) (clientId : String)
    (users : List HUser) (st : Conn σ) :
    userLoop U clientId st users = .ok (afterUsers U clientId st users) := by
  induction users generalizing st with
  | nil => simp [userLoop, afterUsers, stored]
  | cons user rest ih =>
    by_cases h : user.Id = clientId
    · rw [userLoop_bot U clientId st user rest h, ih]
      simp [afterUsers, stored, List.filter_cons, h, noteBot]
    · rw [userLoop_store U clientId st user rest h (hU _ _ _), ih]
      simp [afterUsers, stored, List.filter_cons, h, newUser, rosterEntry, noteBot]

theorem userLoop_append {σ : Type} (U : UserMap σ) (clientId : String)
    (pre post : List HUser) (st st1 : Conn σ)
    (h : userLoop U clientId st pre = .ok st1) :
    userLoop U clientId st (pre ++ post) = userLoop U clientId st1 post := by
  induction pre generalizing st with
  | nil =>
    simp only [userLoop, Except.ok.injEq] at h
    simp [h]
  | cons user rest ih =>
    by_cases hb : user.Id = clientId
    · rw [userLoop_bot U clientId st user rest hb] at h
      rw [List.cons_append, userLoop_bot U clientId st user _ hb]
      exact ih _ h
    · cases hg : U.Get (U.Set st.robot.Users user.Id (newUser user)) user.Id with
      | none =>
        rw [userLoop_fail U clientId st user rest hb hg] at h
        cases h
      | some x =>
        have hs : (U.Get (U.Set st.robot.Users user.Id (newUser user)) user.Id).isSome = true := by
          simp [hg]
        rw [userLoop_store U clientId st user rest hb hs] at h
        rw [List.cons_append, userLoop_store U clientId st user _ hb hs]
        exact ih _ h

theorem userLoop_error_split {σ : Type} (U : UserMap σ) (clientId : String)
    (users : List HUser) (st : Conn σ) (p : Panic)
    (h : userLoop U clientId st users = .error p) :
    ∃ pre user post st1, users = pre ++ user :: post ∧ user.Id ≠ clientId ∧
      userLoop U clientId st pre = .ok st1 ∧
      U.Get (U.Set st1.robot.Users user.Id (newUser user)) user.Id = none ∧
      p = .userAddFail user.Id := by
  induction users generalizing st with
  | nil => simp [userLoop] at h
  | cons user rest ih =>
    by_cases hb : user.Id = clientId
    · rw [userLoop_bot U clientId st user rest hb] at h
      obtain ⟨pre, u, post, st1, he, hne, hpre, hg, hp⟩ := ih _ h
      refine ⟨user :: pre, u, post, st1, by simp [he], hne, ?_, hg, hp⟩
      rw [userLoop_bot U clientId st user pre hb]
      exact hpre
    · cases hg : U.Get (U.Set st.robot.Users user.Id (newUser user)) user.Id with
      | none =>
        rw [userLoop_fail U clientId st user rest hb hg] at h
        refine ⟨[], user, rest, st, rfl, hb, by simp [userLoop], hg, ?_⟩
        cases h
        rfl
      | some x =>
        have hs : (U.Get (U.Set st.robot.Users user.Id (newUser user)) user.Id).isSome = true := by
          simp [hg]
        rw [userLoop_store U clientId st user rest hb hs] at h
        obtain ⟨pre, u, post, st1, he, hne, hpre, hg1, hp⟩ := ih _ h
        refine ⟨user :: pre, u, post, st1, by simp [he], hne, ?_, hg1, hp⟩
        rw [userLoop_store U clientId st user pre hb hs]
        exact hpre

theorem userLoop_ok_eq {σ : Type} (U : UserMap σ) (clientId : String)
    (users : List HUser) (st st1 : Conn σ)
    (h : userLoop U clientId st users = .ok st1) :
    st1 = afterUsers U clientId st users := by
  induction users generalizing st with
  | nil =>
    simp only [userLoop, Except.ok.injEq] at h
    simp [afterUsers, stored, ← h]
  | cons user rest ih =>
    by_cases hb : user.Id = clientId
    · rw [userLoop_bot U clientId st user rest hb] at h
      rw [ih _ h]
      simp [afterUsers, stored, List.filter_cons, hb, noteBot]
    · cases hg : U.Get (U.Set st.robot.Users user.Id (newUser user)) user.Id with
      | none =>
        rw [userLoop_fail U clientId st user rest hb hg] at h
        cases h
      | some x =>
        have hs : (U.Get (U.Set st.robot.Users user.Id (newUser user)) user.Id).isSome = true := by
          simp [hg]
        rw [userLoop_store U clientId st user rest hb hs] at h
        rw [ih _ h]
        simp [afterUsers, stored, List.filter_cons, hb, newUser, rosterEntry, noteBot]

theorem noteBot_fold_set (clientId : String) (users : List HUser) (a : adapter)
    (n k : String) :
    { users.foldl (noteBot clientId) a with name := n, nick := k } =
      { a with name := n, nick := k } := by
  induction users generalizing a with
  | nil => rfl
  | cons u rest ih =>
    rw [List.foldl_cons, ih]
    unfold noteBot
    split <;> rfl

theorem noteBot_fold_none (clientId : String) (users : List HUser) (a : adapter)
    (h : ∀ u ∈ users, u.Id ≠ clientId) :
    users.foldl (noteBot clientId) a = a := by
  induction users generalizing a with
  | nil => rfl
  | cons u rest ih =>
    have hu : u.Id ≠ clientId := h u (List.mem_cons_self _ _)
    rw [List.foldl_cons, ih _ (fun v hv => h v (List.mem_cons_of_mem _ hv))]
    simp [noteBot, hu]

theorem noteBot_fold_last (clientId : String) (pre post : List HUser) (bot : HUser)
    (a : adapter) (hb : bot.Id = clientId) (h : ∀ u ∈ post, u.Id ≠ clientId) :
    (pre ++ bot :: post).foldl (noteBot clientId) a =
      { a with name := bot.Name, nick := bot.MentionName } := by
  rw [List.foldl_append, List.foldl_cons, noteBot_fold_none clientId post _ h]
  simp only [noteBot, hb, if_true]
  exact noteBot_fold_set clientId pre a _ _

theorem mapRoster_readsBack : mapRoster.ReadsBack := by
  intro s k u
  simp [mapRoster, List.lookup_cons]

theorem startConnection_failed {σ : Type} (U : UserMap σ) (w : World) (cfg : Config)
    (a : adapter) (robot : Robot σ) (e : String)
    (h : w.NewClient a.user a.password a.resource = .error e) :
    startConnection U w cfg a robot =
      .ok ({ a := a, robot := robot, trace := [],
             ops := [Op.NewClient a.user a.password a.resource] }, some e) := by
  simp [startConnection, h]

theorem startConnection_connected {σ : Type} (U : UserMap σ) (hU : U.ReadsBack) (w : World)
    (cfg : Config) (a : adapter) (robot : Robot σ) (client : Client)
    (h : w.NewClient a.user a.password a.resource = .ok client)
    (hd : handlerLoop w.compiles cfg robot.Handlers = .ok ()) :
    ∃ st, startConnection U w cfg a robot = .ok (st, none) := by
  simp only [startConnection, h, userLoop_ok U hU]
  rw [messageLoop_eq U w.compiles cfg w.Messages _ (by simpa [afterUsers] using hd)]
  exact ⟨_, rfl⟩

theorem messageLoop_panic {σ : Type} (U : UserMap σ) (compiles : String → Bool) (cfg : Config)
    (msgs : List HMessage) (st : Conn σ) (p : Panic)
    (h : messageLoop U compiles cfg st msgs = .error p) :
    p = .typeAssertion ∨ ∃ e, p = .regexpCompile e := by
  cases hd : handlerLoop compiles cfg st.robot.Handlers with
  | ok u =>
    rw [messageLoop_eq U compiles cfg msgs st hd] at h
    cases h
  | error q =>
    rw [messageLoop_error U compiles cfg msgs st p q hd h]
    exact handlerLoop_error compiles cfg _ q hd

theorem startConnection_panic_kind {σ : Type} (U : UserMap σ) (w : World)
    (cfg : Config) (a : adapter) (robot : Robot σ) (p : Panic)
    (h : startConnection U w cfg a robot = .error p) :
    (∃ client, w.NewClient a.user a.password a.resource = .ok client) ∧
    (p = .typeAssertion ∨ (∃ e, p = .regexpCompile e) ∨ ∃ id, p = .userAddFail id) := by
  cases hc : w.NewClient a.user a.password a.resource with
  | error e =>
    rw [startConnection_failed U w cfg a robot e hc] at h
    cases h
  | ok client =>
    refine ⟨⟨client, rfl⟩, ?_⟩
    simp only [startConnection, hc] at h
    split at h
    · rename_i p1 hp1
      obtain ⟨_, user, _, _, _, _, _, _, hpe⟩ := userLoop_error_split U _ _ _ p1 hp1
      simp only [Except.error.injEq] at h
      rw [← h]
      exact Or.inr (Or.inr ⟨user.Id, hpe⟩)
    · split at h
      · rename_i p2 hp2
        have hk := messageLoop_panic U _ _ _ _ p2 hp2
        simp only [Except.error.injEq] at h
        rw [← h]
        rcases hk with h1 | h2
        · exact Or.inl h1
        · exact Or.inr (Or.inl h2)
      · cases h

theorem startConnection_panic {σ : Type} (U : UserMap σ) (hU : U.ReadsBack) (w : World)
    (cfg : Config) (a : adapter) (robot : Robot σ) (p : Panic)
    (h : startConnection U w cfg a robot = .error p) :
    p = .typeAssertion ∨ ∃ e, p = .regexpCompile e := by
  obtain ⟨⟨client, hc⟩, _⟩ := startConnection_panic_kind U w cfg a robot p h
  simp only [startConnection, hc, userLoop_ok U hU] at h
  split at h
  · rename_i p2 hp2
    have hk := messageLoop_panic U _ _ _ _ p2 hp2
    simp only [Except.error.injEq] at h
    rw [← h]
    exact hk
  · cases h

theorem startConnection_ok_shape {σ : Type} (U : UserMap σ) (w : World)
    (cfg : Config) (a : adapter) (robot : Robot σ) (client : Client) (st : Conn σ)
    (r : Option String)
    (hc : w.NewClient a.user a.password a.resource = .ok client)
    (h : startConnection U w cfg a robot = .ok (st, r)) :
    r = none ∧
    st.ops = [Op.NewClient a.user a.password a.resource, Op.RecvUsers, Op.RecvRooms] ++
      w.Messages.map Op.RecvMessage := by
  simp only [startConnection, hc] at h
  split at h
  · cases h
  · rename_i st1 hst1
    have e1 := userLoop_ok_eq U _ _ _ st1 hst1
    split at h
    · cases h
    · rename_i st3 hst3
      have e3 := messageLoop_ops U _ _ _ _ st3 hst3
      simp only [Except.ok.injEq, Prod.mk.injEq] at h
      obtain ⟨h1, h2⟩ := h
      subst h1
      refine ⟨h2.symm, ?_⟩
      rw [e3, e1]
      simp [afterUsers]

theorem sendLoop_connected {σ : Type} (U : UserMap σ) (a : adapter) (users : σ)
    (res : Response) (c : Client) (hc : a.client = some c) (strings : List String) :
    sendLoop U a users res strings =
      .ok (strings.map (fun str =>
        match U.Get users res.Message.Room with
        | none => Event.Say res.Message.Room a.name str
        | some user => Event.PrivSay user.ID a.name str)) := by
  induction strings with
  | nil => rfl
  | cons str rest ih =>
    cases hg : U.Get users res.Message.Room <;> simp [sendLoop, onClient, hc, hg, ih]

theorem sendLoop_nil_client {σ : Type} (U : UserMap σ) (a : adapter) (users : σ)
    (res : Response) (hc : a.client = none) (str : String) (rest : List String) :
    sendLoop U a users res (str :: rest) = .error .nilDereference := by
  cases hg : U.Get users res.Message.Room <;> simp [sendLoop, onClient, hc, hg]

theorem Send_nil_client {σ : Type} (U : UserMap σ) (a : adapter) (users : σ)
    (res : Response) (hc : a.client = none) (str : String) (rest : List String) :
    Send U a users res (str :: rest) = .error .nilDereference := by
  simp [Send, sendLoop_nil_client U a users res hc]

theorem length_pos_iff (s : String) : s.length > 0 ↔ s ≠ "" := by
  obtain ⟨l⟩ := s
  cases l with
  | nil =>
    have h : (String.mk []) = "" := rfl
    simp [String.length, h]
  | cons c cs =>
    have h : (String.mk (c :: cs)) ≠ "" := by
      intro e
      have e2 := congrArg String.data e
      simp at e2
    simp [String.length, h]

theorem replyLoop_eq (res : Response) (mn : String)
    (h : mentionName res.Envelope.User = .ok mn) (strings acc : List String) :
    replyLoop res acc strings = .ok (acc ++ directReplies mn strings) := by
  induction strings generalizing acc with
  | nil => simp [replyLoop, directReplies]
  | cons str rest ih =>
    simp only [replyLoop, h]
    show replyLoop res (acc ++ ["@" ++ mn ++ ": " ++ str]) rest = _
    rw [ih]
    simp [directReplies]

theorem replyStrings_eq (res : Response) (mn : String)
    (h : mentionName res.Envelope.User = .ok mn) (strings : List String) :
    replyStrings res strings =
      .ok (List.replicate strings.length "" ++ directReplies mn strings) :=
  replyLoop_eq res mn h strings _

/-! ## The joins -/

theorem lookup_map_assign (k v k2 : String) (h : k2 ≠ k) (m : StrMap) :
    (m.map (fun p => if p.1 == k then (k, v) else p)).lookup k2 = m.lookup k2 := by
  induction m with
  | nil => rfl
  | cons p rest ih =>
    obtain ⟨a, b⟩ := p
    by_cases hk : a = k
    · subst hk
      have h2 : (k2 == a) = false := by simpa using h
      have h3 : (a == a) = true := by simp
      simp only [List.map_cons, h3, if_true, List.lookup_cons, h2, ih]
    · have hk2 : (a == k) = false := by simpa using hk
      have hf : ¬ (false = true) := by simp
      simp only [List.map_cons, hk2, if_neg hf, List.lookup_cons, ih]

theorem lookup_append_single (k v k2 : String) (h : k2 ≠ k) (m : StrMap) :
    (m ++ [(k, v)]).lookup k2 = m.lookup k2 := by
  induction m with
  | nil =>
    have h2 : (k2 == k) = false := by simpa using h
    simp [List.lookup_cons, h2]
  | cons p rest ih =>
    obtain ⟨a, b⟩ := p
    simp only [List.cons_append, List.lookup_cons, ih]

theorem assign_lookup_of_ne (m : StrMap) (k v k2 : String) (h : k2 ≠ k) :
    (m.assign k v).lookup k2 = m.lookup k2 := by
  unfold StrMap.assign
  split
  · exact lookup_map_assign k v k2 h m
  · exact lookup_append_single k v k2 h m

theorem roomJids_fold_lookup (name : String) (rooms : List HRoom) (m : StrMap)
    (hm : m.lookup name = none) (h : ∀ r ∈ rooms, r.Name ≠ name) :
    (rooms.foldl (fun m room => m.assign room.Name room.Id) m).lookup name = none := by
  induction rooms generalizing m with
  | nil => exact hm
  | cons r rest ih =>
    rw [List.foldl_cons]
    apply ih
    · rw [assign_lookup_of_ne m r.Name r.Id name (fun e => h r (List.mem_cons_self _ _) e.symm)]
      exact hm
    · exact fun r2 h2 => h r2 (List.mem_cons_of_mem _ h2)

theorem roomJidsOf_unknown (name : String) (rooms : List HRoom)
    (h : ∀ r ∈ rooms, r.Name ≠ name) : (roomJidsOf rooms).at name = "" := by
  unfold StrMap.at roomJidsOf
  rw [roomJids_fold_lookup name rooms [] rfl h]

theorem joinWanted_eq (roomJids : StrMap) (name : String) (rooms : List String) :
    joinWanted roomJids name rooms =
      rooms.map (fun room => Event.Join (roomJids.at room) name) := by
  induction rooms with
  | nil => rfl
  | cons r rest ih => simp [joinWanted, ih]

theorem joinRooms_unknown (order : StrMap → StrMap) (a : adapter) (rooms : List HRoom)
    (name : String) (hn : name ∈ a.rooms) (h : ∀ r ∈ rooms, r.Name ≠ name) :
    Event.Join "" a.name ∈ joinRooms order a (roomJidsOf rooms) := by
  have hpos : a.rooms.length > 0 := List.length_pos_of_mem hn
  simp only [joinRooms, if_pos hpos, joinWanted_eq]
  exact List.mem_map.2 ⟨name, hn, by rw [roomJidsOf_unknown name rooms h]⟩

/-! ## The claims -/

/-- C5: `newMessage` returns, for every wire message, a message whose `Room` is
`from[0]`, the text of `From` before its first `/` (all of `From` when there is
no `/`), whose `Text` is `"@" ++ alias ++ ": " ++ Body`, and whose `User` is
what the roster holds under that room string, the zero user on a miss; the
indexing `from[0]` succeeds for every `From`. -/
theorem newMessage_translates {σ : Type} (U : UserMap σ) (users : σ) (cfgAlias : String)
    (msg : HMessage) :
    ∃ m, newMessage U users cfgAlias msg = .ok m ∧
      index (Split msg.From '/') 0 = .ok m.Room ∧
      m.Room = beforeFirst '/' msg.From ∧
      ('/' ∉ msg.From.data → m.Room = msg.From) ∧
      m.Text = "@" ++ cfgAlias ++ ": " ++ msg.Body ∧
      m.User = (match U.Get users m.Room with
        | some u => u
        | none => User.zero) := by
  refine ⟨translated U users cfgAlias msg, newMessage_eq U users cfgAlias msg,
    index_zero_Split _ _, rfl, ?_, rfl, ?_⟩
  · intro h
    exact beforeFirst_without _ _ h
  · show (U.Get users (beforeFirst '/' msg.From)).getD User.zero =
      (match U.Get users (beforeFirst '/' msg.From) with
        | some u => u
        | none => User.zero)
    cases U.Get users (beforeFirst '/' msg.From) <;> rfl

/-- C3: the message loop reads each inbound message once, in arrival order,
and passes it on (translated by `newMessage`, to `Receive`) exactly when
`From`, split on `/`, has at least two parts and the second part, the text
between the first `/` and the next one or the end, is not `a.name`; a message
with no `/` in `From` and a message from the bot are skipped, whatever the
handlers are.  When `Receive` can inspect the handlers, the messages passed on
reach the robot once each, in arrival order, and the loop ends normally; when
it cannot, the loop ends normally if no message is to be passed on and
otherwise ends in the panic of `Receive` at the first one. -/
theorem messageLoop_forwards {σ : Type} (U : UserMap σ) (compiles : String → Bool)
    (cfg : Config) (st : Conn σ) (msgs : List HMessage) :
    (∀ m : HMessage, wanted st.a.name m = true ↔
      2 ≤ (Split m.From '/').length ∧ (Split m.From '/').get? 1 ≠ some st.a.name) ∧
    (∀ m : HMessage, '/' ∈ m.From.data →
      (Split m.From '/').get? 1 = some (afterFirst '/' m.From)) ∧
    (∀ m : HMessage, '/' ∉ m.From.data → wanted st.a.name m = false) ∧
    (∀ m : HMessage, (Split m.From '/').get? 1 = some st.a.name →
      wanted st.a.name m = false) ∧
    (∀ (m : HMessage) (rest : List HMessage), wanted st.a.name m = false →
      messageLoop U compiles cfg st (m :: rest) =
        messageLoop U compiles cfg { st with ops := st.ops ++ [Op.RecvMessage m] } rest) ∧
    (∀ (m : HMessage) (rest : List HMessage), wanted st.a.name m = true →
      messageLoop U compiles cfg st (m :: rest) =
        match Receive compiles cfg st.robot.Handlers
            (translated U st.robot.Users cfg.Alias m) with
        | .error p => .error p
        | .ok r =>
          messageLoop U compiles cfg
            { st with trace := st.trace ++ r.1, ops := st.ops ++ [Op.RecvMessage m] } rest) ∧
    (handlerLoop compiles cfg st.robot.Handlers = .ok () →
      messageLoop U compiles cfg st msgs =
        .ok { st with
              trace := st.trace ++ (msgs.filter (wanted st.a.name)).map
                (fun m => Event.RobotReceive (translated U st.robot.Users cfg.Alias m))
              ops := st.ops ++ msgs.map Op.RecvMessage }) ∧
    (∀ q, handlerLoop compiles cfg st.robot.Handlers = .error q →
      messageLoop U compiles cfg st msgs =
        if msgs.any (wanted st.a.name) = true then .error q
        else .ok { st with ops := st.ops ++ msgs.map Op.RecvMessage }) ∧
    (∀ m, newMessage U st.robot.Users cfg.Alias m =
      .ok (translated U st.robot.Users cfg.Alias m)) := by
  refine ⟨fun m => wanted_iff_split _ m, ?_, ?_, ?_,
    fun m rest hw => messageLoop_skip U compiles cfg m rest st hw,
    fun m rest hw => messageLoop_pass U compiles cfg m rest st hw,
    fun hd => messageLoop_eq U compiles cfg msgs st hd,
    fun q hd => messageLoop_bad U compiles cfg msgs st q hd,
    fun m => newMessage_eq U _ cfg.Alias m⟩
  · intro m h
    obtain ⟨rest, hs⟩ := Split_with m.From '/' h
    simp [hs]
  · intro m h
    simp [wanted, h]
  · intro m h
    have := (wanted_iff_split st.a.name m).not.2 (fun hc => hc.2 h)
    simpa using this

/-- The message loop of C3 on three messages: one from the room itself, one
from Alice, one from the bot; Alice's is the one passed on, and with a handler
`Receive` cannot inspect the loop ends at it. -/
theorem messageLoop_forwards_witness :
    messageLoop mapRoster (fun _ => true) sampleCfg
        { a := { New sampleConfig with name := "Hal" }, robot := sampleRobot, trace := [] }
        sampleWorld.Messages =
      .ok { a := { New sampleConfig with name := "Hal" }, robot := sampleRobot,
            trace := [Event.RobotReceive
              { User := User.zero, Room := "7_dev@conf.hipchat.com", Text := "@hal: ping" }],
            ops := sampleWorld.Messages.map Op.RecvMessage } ∧
    messageLoop mapRoster (fun _ => true) sampleCfg
        { a := { New sampleConfig with name := "Hal" },
          robot := { sampleRobot with Handlers := [Handler.foreign] }, trace := [] }
        sampleWorld.Messages = .error .typeAssertion :=
  ⟨(messageLoop_forwards mapRoster (fun _ => true) sampleCfg
      { a := { New sampleConfig with name := "Hal" }, robot := sampleRobot, trace := [] }
      sampleWorld.Messages).2.2.2.2.2.2.1 rfl,
    (messageLoop_forwards mapRoster (fun _ => true) sampleCfg
      { a := { New sampleConfig with name := "Hal" },
        robot := { sampleRobot with Handlers := [Handler.foreign] }, trace := [] }
      sampleWorld.Messages).2.2.2.2.2.2.2.1 .typeAssertion rfl⟩

/-- C1: on a connected adapter `Send` makes one client call per string, in the
order of the list, and returns nil: `Say(res.Message.Room, a.name, str)` when
the roster lookup of `res.Message.Room` fails, `PrivSay(u.ID, a.name, str)`
when it yields `u`; nothing else is called, and nothing at all for the empty
list. -/
theorem Send_calls {σ : Type} (U : UserMap σ) (a : adapter) (users : σ) (res : Response)
    (strings : List String) (c : Client) (hc : a.client = some c) :
    ∃ calls, Send U a users res strings = .ok (calls, none) ∧
      calls.length = strings.length ∧
      (∀ e ∈ calls, e.isClientCall = true) ∧
      (U.Get users res.Message.Room = none →
        calls = strings.map (fun str => Event.Say res.Message.Room a.name str)) ∧
      (∀ u, U.Get users res.Message.Room = some u →
        calls = strings.map (fun str => Event.PrivSay u.ID a.name str)) ∧
      Send U a users res [] = .ok ([], none) := by
  have key : Send U a users res strings =
      .ok (strings.map (fun str =>
        match U.Get users res.Message.Room with
        | none => Event.Say res.Message.Room a.name str
        | some user => Event.PrivSay user.ID a.name str), none) := by
    unfold Send
    rw [sendLoop_connected U a users res c hc]
  refine ⟨_, key, ?_, ?_, ?_, ?_, rfl⟩
  · simp
  · intro e he
    obtain ⟨str, _, rfl⟩ := List.mem_map.1 he
    cases U.Get users res.Message.Room <;> rfl
  · intro h
    simp [h]
  · intro u h
    simp [h]

/-- The calls of C1 for two strings sent to a room, on a connected adapter. -/
theorem Send_calls_witness :
    connectedAdapter.client = some sampleClient ∧
    ∃ calls, Send mapRoster connectedAdapter [] sampleResponse ["a", "b"] = .ok (calls, none) ∧
      calls = [Event.Say "7_dev@conf.hipchat.com" "Hal" "a",
               Event.Say "7_dev@conf.hipchat.com" "Hal" "b"] :=
  ⟨rfl,
    match Send_calls mapRoster connectedAdapter [] sampleResponse ["a", "b"] sampleClient rfl with
    | ⟨calls, h1, _, _, h4, _⟩ => ⟨calls, h1, h4 rfl⟩⟩

/-- C7: on a roster where a key just set reads back, the user loop ends
normally for every fetched list; each entry with the client's own id sets
`a.name` and `a.nick` and is not stored, each other user is stored under its
`Id` with `ID`, `Name` and `Options["mentionName"]` taken from it, in the
order fetched; so every entry the loop stored has its key as `ID`, and none
was stored under the bot's id. -/
theorem userLoop_stores {σ : Type} (U : UserMap σ) (hU : U.ReadsBack) (clientId : String)
    (st : Conn σ) (users : List HUser) :
    userLoop U clientId st users = .ok (afterUsers U clientId st users) ∧
    (∀ u ∈ users, u.Id ≠ clientId →
      Event.UsersSet u.Id
          { ID := u.Id, Name := u.Name,
            Options := some [("mentionName", Dyn.str u.MentionName)] } ∈
        (stored clientId users).map (fun u => Event.UsersSet u.Id (rosterEntry u))) ∧
    (∀ id u, Event.UsersSet id u ∈
        (stored clientId users).map (fun u => Event.UsersSet u.Id (rosterEntry u)) →
      id = u.ID ∧ id ≠ clientId) ∧
    (∀ pre bot post, users = pre ++ bot :: post → bot.Id = clientId →
      (∀ u ∈ post, u.Id ≠ clientId) →
      (afterUsers U clientId st users).a =
        { st.a with name := bot.Name, nick := bot.MentionName }) ∧
    ((∀ u ∈ users, u.Id ≠ clientId) → (afterUsers U clientId st users).a = st.a) := by
  refine ⟨userLoop_ok U hU clientId users st, ?_, ?_, ?_, ?_⟩
  · intro u hu hne
    refine List.mem_map.2 ⟨u, ?_, rfl⟩
    simp [stored, hu, hne]
  · intro id u h
    obtain ⟨hu, hmem, heq⟩ := List.mem_map.1 h
    have hne : hu.Id ≠ clientId := by
      have := (List.mem_filter.1 hmem).2
      simpa using this
    simp only [Event.UsersSet.injEq] at heq
    obtain ⟨h1, h2⟩ := heq
    subst h1 h2
    exact ⟨rfl, hne⟩
  · intro pre bot post he hb hpost
    subst he
    exact noteBot_fold_last clientId pre post bot st.a hb hpost
  · intro h
    exact noteBot_fold_none clientId users st.a h

/-- A run of the user loop of C7 on the framework's map roster. -/
theorem userLoop_stores_witness :
    mapRoster.ReadsBack ∧
    userLoop mapRoster botH.Id { a := New sampleConfig, robot := sampleRobot, trace := [] }
        [botH, aliceH] =
      .ok (afterUsers mapRoster botH.Id
        { a := New sampleConfig, robot := sampleRobot, trace := [] } [botH, aliceH]) :=
  ⟨mapRoster_readsBack,
    (userLoop_stores mapRoster mapRoster_readsBack botH.Id
      { a := New sampleConfig, robot := sampleRobot, trace := [] } [botH, aliceH]).1⟩

/-- C9: the user loop panics exactly when, for some fetched user other than the
bot, `Get` of its id fails right after `Set` of that id (the users before it
having been handled without a panic), and that is the only panic of the loop;
on a roster where a key just set reads back, the loop never panics, and
`startConnection` never ends in that panic. -/
theorem userLoop_panics_iff {σ : Type} (U : UserMap σ) (clientId : String)
    (st : Conn σ) (users : List HUser) :
    ((∃ p, userLoop U clientId st users = .error p) ↔
      ∃ pre user post st1, users = pre ++ user :: post ∧ user.Id ≠ clientId ∧
        userLoop U clientId st pre = .ok st1 ∧
        U.Get (U.Set st1.robot.Users user.Id (newUser user)) user.Id = none) ∧
    (∀ p, userLoop U clientId st users = .error p → ∃ id, p = .userAddFail id) ∧
    (U.ReadsBack → ∃ st1, userLoop U clientId st users = .ok st1) ∧
    (U.ReadsBack → ∀ (w : World) (cfg : Config) (a : adapter) (robot : Robot σ) (id : String),
      startConnection U w cfg a robot ≠ .error (.userAddFail id)) := by
  refine ⟨⟨?_, ?_⟩, ?_, ?_, ?_⟩
  · rintro ⟨p, hp⟩
    obtain ⟨pre, user, post, st1, he, hne, hpre, hg, _⟩ :=
      userLoop_error_split U clientId users st p hp
    exact ⟨pre, user, post, st1, he, hne, hpre, hg⟩
  · rintro ⟨pre, user, post, st1, he, hne, hpre, hg⟩
    subst he
    rw [userLoop_append U clientId pre (user :: post) st st1 hpre]
    exact ⟨_, userLoop_fail U clientId st1 user post hne hg⟩
  · intro p hp
    obtain ⟨_, user, _, _, _, _, _, _, hpe⟩ := userLoop_error_split U clientId users st p hp
    exact ⟨user.Id, hpe⟩
  · intro hU
    exact ⟨_, userLoop_ok U hU clientId users st⟩
  · intro hU w cfg a robot id hp
    rcases startConnection_panic U hU w cfg a robot _ hp with h1 | ⟨e, h2⟩
    · cases h1
    · cases h2

/-- The panic of C9 on a roster that stores nothing, and its absence on the
framework's map roster. -/
theorem userLoop_panics_iff_witness :
    (∃ p, userLoop deafRoster botH.Id
      { a := New sampleConfig, robot := { Users := (), Alias := "", Handlers := [] }, trace := [] }
      [botH, aliceH] = .error p) ∧
    (∃ st1, userLoop mapRoster botH.Id
      { a := New sampleConfig, robot := sampleRobot, trace := [] } [botH, aliceH] = .ok st1) :=
  ⟨(userLoop_panics_iff deafRoster botH.Id
      { a := New sampleConfig, robot := { Users := (), Alias := "", Handlers := [] }, trace := [] }
      [botH, aliceH]).1.2
      ⟨[botH], aliceH, [], _, rfl, by decide, rfl, rfl⟩,
    (userLoop_panics_iff mapRoster botH.Id
      { a := New sampleConfig, robot := sampleRobot, trace := [] }
      [botH, aliceH]).2.2.1 mapRoster_readsBack⟩

/-- C10: for a non-nil user, `mentionName` returns `""` when `Options` has no
`mentionName` key, the nil map included, and the stored string when the key
holds one; for every user the user loop stored it returns the fetched
`MentionName`, the type assertion succeeding. -/
theorem mentionName_spec :
    (∀ u : User, (u.Options.getD []).lookup "mentionName" = none →
      mentionName (some u) = .ok "") ∧
    (∀ u : User, u.Options = none → mentionName (some u) = .ok "") ∧
    (∀ (u : User) (v : String), (u.Options.getD []).lookup "mentionName" = some (Dyn.str v) →
      mentionName (some u) = .ok v) ∧
    (∀ hu : HUser, mentionName (some (newUser hu)) = .ok hu.MentionName) ∧
    (∀ (σ : Type) (U : UserMap σ) (clientId : String) (st st1 : Conn σ) (users : List HUser),
      userLoop U clientId st users = .ok st1 →
      ∀ id u, Event.UsersSet id u ∈ st1.trace →
        Event.UsersSet id u ∈ st.trace ∨
        ∃ hu ∈ users, hu.Id ≠ clientId ∧ id = hu.Id ∧ u = newUser hu ∧
          mentionName (some u) = .ok hu.MentionName) := by
  refine ⟨?_, ?_, ?_, ?_, ?_⟩
  · intro u h
    simp [mentionName, h]
  · intro u h
    simp [mentionName, h]
  · intro u v h
    simp [mentionName, h]
  · intro hu
    simp [mentionName, newUser, List.lookup_cons]
  · intro σ U clientId st st1 users h id u hmem
    rw [userLoop_ok_eq U clientId users st st1 h] at hmem
    simp only [afterUsers, List.mem_append] at hmem
    rcases hmem with h0 | h1
    · exact Or.inl h0
    · right
      obtain ⟨hu, hmem, heq⟩ := List.mem_map.1 h1
      have hne : hu.Id ≠ clientId := by
        have := (List.mem_filter.1 hmem).2
        simpa using this
      simp only [Event.UsersSet.injEq] at heq
      obtain ⟨h1, h2⟩ := heq
      subst h1 h2
      exact ⟨hu, (List.mem_filter.1 hmem).1, hne, rfl, rfl,
        by simp [mentionName, rosterEntry, List.lookup_cons]⟩

/-- C8: when `NewClient` fails with `e`, `startConnection` returns `e` after
that one call of `NewClient`, having made no call on a client, received from
no channel, and changed nothing (adapter, roster and alias as before).  When
`NewClient` succeeds, every return is nil, after one login, one receive of the
users, one of the rooms and one of each message delivered before the stream
ends; the run does return when the roster reads back what was set and
`Receive` can inspect the handlers, and a run that does not return ends in the
panic of the user loop or of `Receive`.  No run calls `NewClient` twice. -/
theorem startConnection_returns {σ : Type} (U : UserMap σ) (w : World) (cfg : Config)
    (a : adapter) (robot : Robot σ) :
    (∀ e, w.NewClient a.user a.password a.resource = .error e →
      startConnection U w cfg a robot =
        .ok ({ a := a, robot := robot, trace := [],
               ops := [Op.NewClient a.user a.password a.resource] }, some e)) ∧
    (∀ client, w.NewClient a.user a.password a.resource = .ok client → U.ReadsBack →
      handlerLoop w.compiles cfg robot.Handlers = .ok () →
      ∃ st, startConnection U w cfg a robot = .ok (st, none)) ∧
    (∀ client st r, w.NewClient a.user a.password a.resource = .ok client →
      startConnection U w cfg a robot = .ok (st, r) →
      r = none ∧
      st.ops = [Op.NewClient a.user a.password a.resource, Op.RecvUsers, Op.RecvRooms] ++
        w.Messages.map Op.RecvMessage) ∧
    (∀ st r, startConnection U w cfg a robot = .ok (st, r) →
      st.ops.filter Op.isLogin = [Op.NewClient a.user a.password a.resource]) ∧
    (∀ p, startConnection U w cfg a robot = .error p →
      (∃ client, w.NewClient a.user a.password a.resource = .ok client) ∧
      (p = .typeAssertion ∨ (∃ e, p = .regexpCompile e) ∨ ∃ id, p = .userAddFail id)) := by
  refine ⟨fun e h => startConnection_failed U w cfg a robot e h,
    fun client h hU hd => startConnection_connected U hU w cfg a robot client h hd,
    fun client st r hc h => startConnection_ok_shape U w cfg a robot client st r hc h, ?_,
    fun p h => startConnection_panic_kind U w cfg a robot p h⟩
  intro st r h
  cases hc : w.NewClient a.user a.password a.resource with
  | error e =>
    rw [startConnection_failed U w cfg a robot e hc] at h
    simp only [Except.ok.injEq, Prod.mk.injEq] at h
    rw [← h.1]
    rfl
  | ok client =>
    rw [(startConnection_ok_shape U w cfg a robot client st r hc h).2]
    simp [List.filter_cons, Op.isLogin, List.filter_eq_nil_iff]

/-- A refused login and an accepted one, for C8. -/
theorem startConnection_returns_witness :
    startConnection mapRoster refusingWorld sampleCfg (New sampleConfig) sampleRobot =
        .ok ({ a := New sampleConfig, robot := sampleRobot, trace := [],
               ops := [Op.NewClient "7_bot" "pw" "bot"] }, some "refused") ∧
    (∃ st, startConnection mapRoster sampleWorld sampleCfg (New sampleConfig) sampleRobot =
        .ok (st, none)) :=
  ⟨(startConnection_returns mapRoster refusingWorld sampleCfg (New sampleConfig) sampleRobot).1
      "refused" rfl,
    (startConnection_returns mapRoster sampleWorld sampleCfg (New sampleConfig) sampleRobot).2.1
      sampleClient rfl mapRoster_readsBack rfl⟩

/-- C2: at `strings = ["hi"]`, for a user whose mention name is `al`, `Reply`
hands `Send` two strings, the empty string first and the reply second, not the
single reply; two messages go out and the first is empty. -/
theorem Reply_hands_blank_strings :
    replyStrings sampleResponse ["hi"] = .ok ["", "@al: hi"] ∧
    directReplies "al" ["hi"] = ["@al: hi"] ∧
    replyStrings sampleResponse ["hi"] ≠ .ok (directReplies "al" ["hi"]) ∧
    Reply mapRoster connectedAdapter [] sampleResponse ["hi"] =
      .ok ([Event.Say "7_dev@conf.hipchat.com" "Hal" "",
            Event.Say "7_dev@conf.hipchat.com" "Hal" "@al: hi"], none) := by
  refine ⟨rfl, rfl, ?_, rfl⟩
  intro h
  have h1 : replyStrings sampleResponse ["hi"] = .ok ["", "@al: hi"] := rfl
  rw [h1] at h
  simp [directReplies] at h

/-- C4: with the one configured room `ghost` and the one fetched room `dev`,
`startConnection` makes the call `Join("", "Hal")`, although no fetched room
has the empty id and none is named `ghost`. -/
theorem startConnection_joins_unknown_room :
    (New sampleConfig).rooms = ["ghost"] ∧
    (∀ room ∈ sampleWorld.Rooms, room.Id ≠ "" ∧ room.Name ∉ (New sampleConfig).rooms) ∧
    ∃ st, startConnection mapRoster sampleWorld sampleCfg (New sampleConfig) sampleRobot =
        .ok (st, none) ∧
      st.trace =
        [Event.Status "chat", Event.RequestUsers,
          Event.UsersSet "7_alice@chat.hipchat.com" (newUser aliceH),
          Event.RequestRooms, Event.Status "chat", Event.Join "" "Hal", Event.KeepAlive,
          Event.RobotReceive
            { User := User.zero, Room := "7_dev@conf.hipchat.com", Text := "@hal: ping" }] := by
  refine ⟨rfl, ?_, _, rfl, rfl⟩
  intro room hroom
  simp only [sampleWorld, List.mem_singleton] at hroom
  subst hroom
  decide

/-- C6, as stated, fails: `New` accepts an environment without rooms and
returns an adapter with an empty name, an empty nick and no room; and it
accepts a room list with an empty item, which becomes an empty room name. -/
theorem New_leaves_fields_empty :
    accepted bareConfig = true ∧
    (New bareConfig).name = "" ∧ (New bareConfig).nick = "" ∧ (New bareConfig).rooms = [] ∧
    accepted gappedConfig = true ∧ "" ∈ (New gappedConfig).rooms := by
  decide

/-- C6, amended: for every configuration `New` accepts, the adapter has the
configuration's user, password and resource, all non-empty; its name and nick
are empty and it has no client yet; its room list is empty when `Rooms` is
empty and is otherwise `Rooms` split on `,`, a non-empty list. -/
theorem New_fields (c : config) (h : accepted c = true) :
    (New c).user = c.User ∧ (New c).user ≠ "" ∧
    (New c).password = c.Password ∧ (New c).password ≠ "" ∧
    (New c).resource = c.Resource ∧ (New c).resource ≠ "" ∧
    (New c).name = "" ∧ (New c).nick = "" ∧ (New c).client = none ∧
    (c.Rooms = "" → (New c).rooms = []) ∧
    (c.Rooms ≠ "" → (New c).rooms = Split c.Rooms ',' ∧ (New c).rooms ≠ []) := by
  simp only [accepted, Bool.and_eq_true, bne_iff_ne, ne_eq] at h
  obtain ⟨⟨hu, hp⟩, hr⟩ := h
  refine ⟨rfl, hu, rfl, hp, rfl, hr, rfl, rfl, rfl, ?_, ?_⟩
  · intro he
    have hl : ¬ c.Rooms.length > 0 := fun hpos => (length_pos_iff c.Rooms).1 hpos he
    simp only [New, if_neg hl]
  · intro hne
    have hl : c.Rooms.length > 0 := (length_pos_iff c.Rooms).2 hne
    obtain ⟨rest, hs⟩ := Split_head c.Rooms ','
    have hrooms : (New c).rooms = Split c.Rooms ',' := by simp only [New, if_pos hl]
    refine ⟨hrooms, ?_⟩
    rw [hrooms, hs]
    exact List.cons_ne_nil _ _

/-- The amended C6 on an environment with one configured room. -/
theorem New_fields_witness :
    accepted sampleConfig = true ∧ (New sampleConfig).user = "7_bot" ∧
    (New sampleConfig).name = "" :=
  ⟨by decide, (New_fields sampleConfig (by decide)).1,
    (New_fields sampleConfig (by decide)).2.2.2.2.2.2.1⟩

end HalHipchat
